import Mathlib

/-!
Verification of the `bp-go` repository (a feedforward neural network trained by
mini-batch SGD with backpropagation), shallowly embedded from the Go sources
`src/matrices/matrices.go` and `src/nn.go`.

Modelling conventions:
* Go `float64` values are modelled as exact rationals `ℚ`.  The transcendental
  helpers `math.Exp` and `math.Log2` are not rational functions, so they are
  passed around as an abstract parameter bundle `FloatFuns`; every theorem below
  holds for an arbitrary bundle, which subsumes the real exponential/logarithm.
* A Go function that can `panic` (out-of-range slice index, integer division by
  zero, `panic(err)`) is modelled with an `Option` result, `none` meaning the
  panic.  A Go function returning `(T, error)` whose callers panic on the error
  is likewise collapsed to `Option T`; where the identity of the error matters
  (the `Max`/`Min` family) the result type is `Option (Except MatrixError T)`,
  with `none` for a runtime panic and `Except.error` for a returned error value.
* A float *division by zero* does not panic in Go: it yields NaN or `±Inf`,
  values with no exact-rational counterpart.  The one reachable site,
  `updateMiniBatch`'s two scalar factors (`len(batch) = 0` or `n = 0`), is made
  explicit: such runs complete but are classified `UpdResult.nanPoisoned`
  (every parameter entry is overwritten by a non-finite float) instead of being
  given the exact body's rational contents.
* `Matrix` mirrors the Go struct: a column count and a flat row-major value
  list.  `Rows()` is `len(values) / cols` (integer division); Go panics on this
  division when `cols = 0`, which the fallible operations model explicitly.
-/

/-- The two transcendental scalar functions used by the Go code (`math.Exp` and
`math.Log2`), abstracted as parameters of the embedding. -/
structure FloatFuns where
  exp : ℚ → ℚ
  log2 : ℚ → ℚ

/-- `matrices.Negate`: negates its argument. -/
def Negate (f : ℚ) : ℚ := -f

/-- `matrices.OnePlus`: increments its argument. -/
def OnePlus (f : ℚ) : ℚ := 1 + f

/-- `matrices.OneMinus`: decrements its argument. -/
def OneMinus (f : ℚ) : ℚ := 1 - f

/-- `matrices.Invert`: inverts its argument.  Go computes `1.0 / f` in IEEE
arithmetic (giving `+Inf` at `0`); in `ℚ` the quotient `1 / 0` is `0`.  No claim
depends on the value at `0`. -/
def Invert (f : ℚ) : ℚ := 1 / f

/-- `matrices.Mult`: returns the function that multiplies with the given
argument. -/
def Mult (f : ℚ) : ℚ → ℚ := fun g => f * g

namespace matrices

/-- `matrices.Matrix`: a column count together with the row-major flat list of
values. -/
structure Matrix where
  cols : ℕ
  values : List ℚ
deriving DecidableEq

/-- `Matrix.Rows`: `len(m.values) / m.cols` (Go integer division).  Go panics
when `m.cols = 0`; Lean's `Nat` division returns `0` instead, and every
fallible operation below re-checks `cols = 0` explicitly where Go would hit
that panic. -/
def Matrix.Rows (m : Matrix) : ℕ := m.values.length / m.cols

/-- `Matrix.Cols`. -/
def Matrix.Cols (m : Matrix) : ℕ := m.cols

/-- `matrices.InitMatrix`: zero-filled matrix of the given shape. -/
def InitMatrix (rows cols : ℕ) : Matrix :=
  ⟨cols, List.replicate (rows * cols) 0⟩

/-- `matrices.InitMatrixWithValues`. -/
def InitMatrixWithValues (cols : ℕ) (values : List ℚ) : Matrix :=
  ⟨cols, values⟩

/-- `Matrix.Copy`: a deep copy; value-equal to the original in the functional
model. -/
def Matrix.Copy (m : Matrix) : Matrix :=
  InitMatrixWithValues m.cols m.values

/-- The raw unchecked accessor `m.at(row, col) = m.values[row*m.Cols()+col]`.
All Go call sites keep the index in bounds; out-of-range reads default to `0`
here (they do not occur on the paths the claims exercise). -/
def Matrix.atU (m : Matrix) (row col : ℕ) : ℚ :=
  m.values.getD (row * m.cols + col) 0

/-- `Matrix.operate`: the shared elementwise-binary-operation worker.  Go
returns an error on shape mismatch (every caller in `nn.go` panics on it) and
panics outright when a `Rows()` call divides by zero or the index loop leaves
the destination/operand storage (possible only for ragged matrices whose value
count is not `rows*cols`); all of these are `none`. -/
def Matrix.operate (m n : Matrix) (operation : ℚ → ℚ → ℚ) : Option Matrix :=
  if m.cols = 0 ∨ n.cols = 0 then none
  else if m.Rows = n.Rows ∧ m.Cols = n.Cols then
    if m.values.length = m.Rows * m.Cols ∧ m.values.length ≤ n.values.length then
      some ⟨m.cols, List.zipWith operation m.values n.values⟩
    else none
  else none

/-- `Matrix.Add`. -/
def Matrix.Add (m n : Matrix) : Option Matrix :=
  m.operate n (fun x y => x + y)

/-- `Matrix.Sub`. -/
def Matrix.Sub (m n : Matrix) : Option Matrix :=
  m.operate n (fun x y => x - y)

/-- `Matrix.Mult`: elementwise (piecewise) product. -/
def Matrix.Mult (m n : Matrix) : Option Matrix :=
  m.operate n (fun x y => x * y)

/-- `Matrix.Apply`: maps a scalar function over every element. -/
def Matrix.Apply (m : Matrix) (operation : ℚ → ℚ) : Matrix :=
  ⟨m.cols, m.values.map operation⟩

/-- Left-to-right running sum, as Go's `sum := 0.0; for ... { sum += v }`. -/
def goSum (xs : List ℚ) : ℚ := xs.foldl (fun a b => a + b) 0

/-- `Matrix.Sum`. -/
def Matrix.Sum (m : Matrix) : ℚ := goSum m.values

/-- `Matrix.Dot`: matrix multiplication.  Entry `(i, j)` of the result (flat
position `k = i * n.Cols + j`) is `Σ_{c < m.Cols} m.at(i,c) * n.at(c,j)`.
Go first evaluates `n.Rows()` for the shape check (panicking when `n.cols = 0`)
and then `m.Rows()` to allocate the result (panicking when `m.cols = 0`). -/
def Matrix.Dot (m n : Matrix) : Option Matrix :=
  if n.cols = 0 then none
  else if m.Cols = n.Rows then
    if m.cols = 0 then none
    else some ⟨n.cols, (List.range (m.Rows * n.Cols)).map (fun k =>
      goSum ((List.range m.Cols).map (fun c =>
        m.atU (k / n.Cols) c * n.atU c (k % n.Cols))))⟩
  else none

/-- `Matrix.Transpose`: entry `(j, i)` of the result (flat position
`k = j * m.Rows + i`) is `m.at(i, j)`.  Go panics when `m.cols = 0` (the
`Rows()` division); no claim evaluates `Transpose` there. -/
def Matrix.Transpose (m : Matrix) : Matrix :=
  ⟨m.Rows, (List.range (m.Cols * m.Rows)).map (fun k =>
    m.atU (k % m.Rows) (k / m.Rows))⟩

/-- The error taxonomy of the matrices package; `EmptyMatrix` stands for the Go
error value `errors.New` returned by the `Max`/`Min` family on an empty
matrix. -/
inductive MatrixError where
  | EmptyMatrix
deriving DecidableEq

/-- `Matrix.MaxAt`: flat index of the largest value, keeping the first
occurrence on ties (`val > maxval` is strict).  `none` models the `Rows()`
division-by-zero panic when `cols = 0`. -/
def Matrix.MaxAt (m : Matrix) : Option (Except MatrixError ℕ) :=
  if m.cols = 0 then none
  else if m.Rows = 0 then some (Except.error MatrixError.EmptyMatrix)
  else
    let start : ℚ × ℕ := (m.values.headD 0, 0)
    let best := m.values.enum.foldl
      (fun best iv => if best.1 < iv.2 then (iv.2, iv.1) else best) start
    some (Except.ok best.2)

/-- `Matrix.MinAt`: flat index of the smallest value, first occurrence on
ties. -/
def Matrix.MinAt (m : Matrix) : Option (Except MatrixError ℕ) :=
  if m.cols = 0 then none
  else if m.Rows = 0 then some (Except.error MatrixError.EmptyMatrix)
  else
    let start : ℚ × ℕ := (m.values.headD 0, 0)
    let best := m.values.enum.foldl
      (fun best iv => if iv.2 < best.1 then (iv.2, iv.1) else best) start
    some (Except.ok best.2)

/-- `Matrix.Max`: Go computes `index, err := m.MaxAt()` and then reads
`m.values[index]` *before* inspecting `err`, so on a matrix with zero rows the
read `m.values[0]` is out of range and panics (`none`). -/
def Matrix.Max (m : Matrix) : Option (Except MatrixError ℚ) :=
  match m.MaxAt with
  | none => none
  | some r =>
    match m.values.get? (match r with | Except.ok i => i | Except.error _ => 0) with
    | none => none
    | some v =>
      some (match r with | Except.ok _ => Except.ok v | Except.error e => Except.error e)

/-- `Matrix.Min`: same structure as `Max`, reading `m.values[index]` before the
error check. -/
def Matrix.Min (m : Matrix) : Option (Except MatrixError ℚ) :=
  match m.MinAt with
  | none => none
  | some r =>
    match m.values.get? (match r with | Except.ok i => i | Except.error _ => 0) with
    | none => none
    | some v =>
      some (match r with | Except.ok _ => Except.ok v | Except.error e => Except.error e)

/-- `Matrix.Sigmoid`: the composed maps `Negate`, `math.Exp`, `OnePlus`,
`Invert`. -/
def Matrix.Sigmoid (m : Matrix) (F : FloatFuns) : Matrix :=
  (((m.Apply Negate).Apply F.exp).Apply OnePlus).Apply Invert

/-- `Matrix.SigmoidPrime`: `Sigmoid * (1 - Sigmoid)` via `Mult`; Go panics on
the (impossible for equal shapes, real for `cols = 0`) error. -/
def Matrix.SigmoidPrime (m : Matrix) (F : FloatFuns) : Option Matrix :=
  (m.Sigmoid F).Mult ((m.Sigmoid F).Apply OneMinus)

/-- `matrices.OneHotMatrix(rows, cols, setrow, setcol)`: zero matrix with a `1`
at the given position.  Go returns the pair `(m, err)` of the zero matrix and
the `Set` error; every caller in `nn.go` panics on the error, so the error and
the `cols = 0` panic inside `checkRowCol`'s `Rows()` call are both `none`. -/
def OneHotMatrix (rows cols : ℕ) (setrow setcol : ℤ) : Option Matrix :=
  let m := InitMatrix rows cols
  if 0 ≤ setrow ∧ 0 ≤ setcol ∧ setrow < (m.Rows : ℤ) ∧ setcol < (m.Cols : ℤ) then
    some ⟨m.cols, m.values.set (setrow.toNat * cols + setcol.toNat) 1⟩
  else none

/-- The external (JSON) form of a `Matrix`: column count plus the row-major
flat value sequence.  The textual JSON encoding layer is out of scope (per the
spec); the structured record it carries is modelled exactly. -/
structure MatrixExport where
  Cols : ℕ
  Values : List ℚ
deriving DecidableEq

/-- `Matrix.MarshalJSON`. -/
def Matrix.MarshalJSON (m : Matrix) : MatrixExport :=
  ⟨m.cols, m.values⟩

/-- `Matrix.UnmarshalJSON`. -/
def Matrix.UnmarshalJSON (e : MatrixExport) : Matrix :=
  ⟨e.Cols, e.Values⟩

end matrices

namespace nn

open matrices

/-- Truncation of a rational toward zero, Go's `int(f)` conversion on a
`float64`. -/
def truncQ (q : ℚ) : ℤ :=
  if 0 ≤ q then ⌊q⌋ else ⌈q⌉

/-- Go slice read `xs[i]` with an `int` index: panics (`none`) when the index
is negative or past the end. -/
def goIndex {α : Type} (xs : List α) (i : ℤ) : Option α :=
  if 0 ≤ i then xs.get? i.toNat else none

/-- Go slice write `xs[i] = v` with an `int` index: panics (`none`) out of
range, otherwise returns the updated list. -/
def goSet {α : Type} (xs : List α) (i : ℤ) (v : α) : Option (List α) :=
  if 0 ≤ i ∧ i < (xs.length : ℤ) then some (xs.set i.toNat v) else none

/-- `nn.TrainItem`: an input row vector, a numeric label and the number of
distinct classes. -/
structure TrainItem where
  Values : Matrix
  Label : ℚ
  Distinct : ℕ
deriving DecidableEq

/-- `nn.InitTrainItem`: wraps a raw value list as a `1×n` matrix. -/
def InitTrainItem (values : List ℚ) (label : ℚ) (distinct : ℕ) : TrainItem :=
  ⟨InitMatrixWithValues values.length values, label, distinct⟩

/-- `nn.NN`: layer sizes, weight matrices, bias matrices — in this field
order, as in the Go struct. -/
structure NN where
  layers : List ℕ
  weights : List Matrix
  biases : List Matrix
deriving DecidableEq

/-- `NN.Copy`.  The Go body builds `layers` (copy of the layer list), `biases`
(copies of `network.biases`) and `weights` (copies of `network.weights`), and
then returns the positional struct literal `NN{layers, biases, weights}`.
Because the struct fields are declared in the order `layers, weights, biases`,
this literal puts the bias copies in the `weights` field and the weight copies
in the `biases` field. -/
def NN.Copy (network : NN) : NN :=
  ⟨network.layers, network.biases.map Matrix.Copy, network.weights.map Matrix.Copy⟩

/-- The forward loop of `NN.FeedForward`: for each layer,
`lastOutput = (lastOutput.Dot(weights).Add(biases)).Sigmoid()`; Go panics on
any `Dot`/`Add` error and when `biases` runs out before `weights`. -/
def feedForwardAux (F : FloatFuns) : List Matrix → List Matrix → Matrix → Option Matrix
  | [], _, lastOutput => some lastOutput
  | w :: ws, b :: bs, lastOutput => do
    let multiplied ← lastOutput.Dot w
    let added ← multiplied.Add b
    feedForwardAux F ws bs (added.Sigmoid F)
  | _ :: _, [], _ => none

/-- `NN.FeedForward`. -/
def NN.FeedForward (network : NN) (F : FloatFuns) (input : Matrix) : Option Matrix :=
  feedForwardAux F network.weights network.biases input

/-- `NN.Evaluate`: the ratio of items whose maximal output index, cast to a
float, equals the label.  Go panics on a `MaxAt` error.  The final statement
divides the correct count by `len(inputs)` even when the list is empty. -/
def NN.Evaluate (network : NN) (F : FloatFuns) (inputs : List TrainItem) : Option ℚ := do
  let correct ← inputs.foldlM (fun (correct : ℕ) input => do
    let output ← network.FeedForward F input.Values
    match output.MaxAt with
    | none => none
    | some (Except.error _) => none
    | some (Except.ok max) =>
      pure (if (max : ℚ) = input.Label then correct + 1 else correct)) 0
  pure ((correct : ℚ) / (inputs.length : ℚ))

/-- `NN.Cost`: mean cross-entropy against the one-hot target, using `Log2`.
The accumulated sum is divided by `len(inputs)` even when the list is empty. -/
def NN.Cost (network : NN) (F : FloatFuns) (inputs : List TrainItem) : Option ℚ := do
  let cost ← inputs.foldlM (fun (cost : ℚ) input => do
    let output ← network.FeedForward F input.Values
    let y ← OneHotMatrix 1 input.Distinct 0 (truncQ input.Label)
    let first ← (y.Apply Negate).Mult (output.Apply F.log2)
    let second ← (y.Apply OneMinus).Mult ((output.Apply OneMinus).Apply F.log2)
    let together ← first.Sub second
    pure (cost + together.Sum)) 0
  pure (cost / (inputs.length : ℚ))

end nn

namespace nn

open matrices

/-- The zero-initialized gradient accumulators built at the top of both
`backprop` and `updateMiniBatch`: one zero matrix per parameter matrix, with
the same shape. -/
def zeroGrads (ms : List Matrix) : List Matrix :=
  ms.map (fun m => InitMatrix m.Rows m.Cols)

/-- The forward section of `NN.backprop`: returns the list `zs` of
pre-activations and the list `activations` whose head is the input; Go panics
on any `Dot`/`Add` error and when `biases` is shorter than `weights`. -/
def forwardTrace (F : FloatFuns) : List Matrix → List Matrix → Matrix → Option (List Matrix × List Matrix)
  | [], _, activation => some ([], [activation])
  | w :: ws, b :: bs, activation => do
    let multiplied ← activation.Dot w
    let z ← multiplied.Add b
    let (zs, activations) ← forwardTrace F ws bs (z.Sigmoid F)
    pure (z :: zs, activation :: activations)
  | _ :: _, [], _ => none

/-- One pass of the backward loop of `NN.backprop` (`for l := 2; l <
len(network.layers); l++`), acting on the state `(delta, nablaW, nablaB)`. -/
def backStep (F : FloatFuns) (network : NN) (zs activations : List Matrix)
    (st : Matrix × List Matrix × List Matrix) (l : ℕ) :
    Option (Matrix × List Matrix × List Matrix) := do
  let z ← goIndex zs ((zs.length : ℤ) - l)
  let sp ← z.SigmoidPrime F
  let wNext ← goIndex network.weights ((network.weights.length : ℤ) - l + 1)
  let dotted ← st.1.Dot wNext.Transpose
  let delta ← dotted.Mult sp
  let nablaB ← goSet st.2.2 ((st.2.2.length : ℤ) - l) delta
  let aPrev ← goIndex activations ((activations.length : ℤ) - l - 1)
  let nw ← aPrev.Transpose.Dot delta
  let nablaW ← goSet st.2.1 ((st.2.1.length : ℤ) - l) nw
  pure (delta, nablaW, nablaB)

/-- `NN.backprop`: per-item gradients.  The output-layer error is
`delta = activations[last].Sub(y)` (the cross-entropy simplification — no
`SigmoidPrime` factor), `nablaB[last] = delta`,
`nablaW[last] = activations[last-1].Transpose().Dot(delta)`, followed by the
backward loop for the remaining layers. -/
def NN.backprop (network : NN) (F : FloatFuns) (item : TrainItem) :
    Option (List Matrix × List Matrix) := do
  let nablaW0 := zeroGrads network.weights
  let nablaB0 := zeroGrads network.biases
  let (zs, activations) ← forwardTrace F network.weights network.biases item.Values
  let y ← OneHotMatrix 1 item.Distinct 0 (truncQ item.Label)
  let aLast ← goIndex activations ((activations.length : ℤ) - 1)
  let delta ← aLast.Sub y
  let nablaB1 ← goSet nablaB0 ((nablaB0.length : ℤ) - 1) delta
  let aPrev ← goIndex activations ((activations.length : ℤ) - 2)
  let nwLast ← aPrev.Transpose.Dot delta
  let nablaW1 ← goSet nablaW0 ((nablaW0.length : ℤ) - 1) nwLast
  let (_, nablaW, nablaB) ←
    (List.range' 2 (network.layers.length - 2)).foldlM
      (backStep F network zs activations) (delta, nablaW1, nablaB1)
  pure (nablaW, nablaB)

/-- The accumulation loop `cxw[i] = cxw[i].Add(nabla)` over one gradient list:
Go panics when a shape mismatch occurs or when the nabla list is longer than
the accumulator list; accumulator entries beyond the nabla list are kept. -/
def addInto : List Matrix → List Matrix → Option (List Matrix)
  | cx, [] => some cx
  | cx0 :: cx, nabla :: nablas => do
    let s ← cx0.Add nabla
    let rest ← addInto cx nablas
    pure (s :: rest)
  | [], _ :: _ => none

/-- The per-batch gradient summation of `updateMiniBatch`: fold `backprop`
over the batch, adding each item's `nablaW`/`nablaB` into the accumulators. -/
def sumGrads (F : FloatFuns) (network : NN) (batch : List TrainItem)
    (cxw0 cxb0 : List Matrix) : Option (List Matrix × List Matrix) :=
  batch.foldlM (fun acc item => do
    let (nablaW, nablaB) ← network.backprop F item
    let cxw ← addInto acc.1 nablaW
    let cxb ← addInto acc.2 nablaB
    pure (cxw, cxb)) (cxw0, cxb0)

/-- The weight-update loop of `updateMiniBatch`:
`weights[i] = weights[i].Apply(regularization).Sub(cxw[i].Apply(multByConst))`,
iterating over the accumulator list. -/
def updWeights (regularization multByConst : ℚ → ℚ) :
    List Matrix → List Matrix → Option (List Matrix)
  | ws, [] => some ws
  | w :: ws, c :: cs => do
    let r ← (w.Apply regularization).Sub (c.Apply multByConst)
    let rest ← updWeights regularization multByConst ws cs
    pure (r :: rest)
  | [], _ :: _ => none

/-- The bias-update loop of `updateMiniBatch`:
`biases[i] = biases[i].Sub(cxb[i].Apply(multByConst))` — no regularization
factor. -/
def updBiases (multByConst : ℚ → ℚ) :
    List Matrix → List Matrix → Option (List Matrix)
  | bs, [] => some bs
  | b :: bs, c :: cs => do
    let r ← b.Sub (c.Apply multByConst)
    let rest ← updBiases multByConst bs cs
    pure (r :: rest)
  | [], _ :: _ => none

/-- The exact-arithmetic body of `NN.updateMiniBatch(batch, eta, lmbda, n)`
where `n` is the full training-set size (`len(inputs)` at the call site in
`Train`): `multByConst = Mult(eta / len(batch))` and
`regularization = Mult(1 - eta*lmbda/n)`.  This body is faithful to the Go
float arithmetic only when neither division hits a zero denominator; the
wrapper `NN.updateMiniBatch` below marks the division-by-zero runs. -/
def NN.updateMiniBatchExact (network : NN) (F : FloatFuns)
    (batch : List TrainItem) (eta lmbda : ℚ) (n : ℕ) : Option NN := do
  let (cxw, cxb) ← sumGrads F network batch
    (zeroGrads network.weights) (zeroGrads network.biases)
  let multByConst := Mult (eta / (batch.length : ℚ))
  let regularization := Mult (1 - eta * lmbda / (n : ℚ))
  let weights ← updWeights regularization multByConst network.weights cxw
  let biases ← updBiases multByConst network.biases cxb
  pure ⟨network.layers, weights, biases⟩

/-- Outcome of an `updateMiniBatch` run.  Go never returns an error from this
method: a run either panics on a shape mismatch (`panicked`), or completes.
When `len(batch) = 0` or `n = 0`, a scalar factor divides by zero in IEEE
arithmetic: `eta/0.0` is NaN (for `eta = 0`) or `±Inf`, `0 * ±Inf` is NaN, and
the subsequent `Apply`/`Sub` write NaN (or `±Inf`) into every weight and bias
entry — the run *completes with changed, non-finite parameters*.  Those
values have no exact-rational counterpart, so such completed runs are
reported as `nanPoisoned` rather than given made-up rational contents. -/
inductive UpdResult where
  | ok (network : NN)
  | nanPoisoned
  | panicked
deriving DecidableEq

/-- `NN.updateMiniBatch`: the exact body, with the division-by-zero runs
(`len(batch) = 0` or `n = 0`) classified as `nanPoisoned` — they complete in
Go, but with every parameter entry overwritten by a non-finite float, not
with the values the exact body computes. -/
def NN.updateMiniBatch (network : NN) (F : FloatFuns) (batch : List TrainItem)
    (eta lmbda : ℚ) (n : ℕ) : UpdResult :=
  match network.updateMiniBatchExact F batch eta lmbda n with
  | none => UpdResult.panicked
  | some network' =>
    if batch.length = 0 ∨ n = 0 then UpdResult.nanPoisoned
    else UpdResult.ok network'

end nn

namespace nn

open matrices

/-- The batch count computed in `Train`:
`int(float64(inputCount)/float64(miniBatchSize) + 0.5)`, i.e.
`⌊inputCount/miniBatchSize + 1/2⌋` — written over `ℕ` as
`(2*inputCount + miniBatchSize) / (2*miniBatchSize)`.  (For a zero
`miniBatchSize` the Go float conversion is not meaningfully defined; the model
returns `0`, and no claim exercises it.) -/
def batchesCount (inputCount miniBatchSize : ℕ) : ℕ :=
  if miniBatchSize = 0 then 0
  else (2 * inputCount + miniBatchSize) / (2 * miniBatchSize)

/-- The batching loop of `Train`: for each `i < batchesCount`,
`batches[i] = shuffled[i*mbs:]` when `i + mbs >= inputCount` (note: the Go
condition compares the *batch index* `i`, not the offset `i*mbs`, against the
input count) and `batches[i] = shuffled[i*mbs : i*mbs+mbs]` otherwise.  A
slice bound past the end of the list is a Go panic (`none`). -/
def goBatches {α : Type} (shuffled : List α) (miniBatchSize : ℕ) :
    Option (List (List α)) :=
  let inputCount := shuffled.length
  (List.range (batchesCount inputCount miniBatchSize)).mapM (fun i =>
    if inputCount ≤ i + miniBatchSize then
      if i * miniBatchSize ≤ inputCount then
        some (shuffled.drop (i * miniBatchSize))
      else none
    else
      if i * miniBatchSize + miniBatchSize ≤ inputCount then
        some ((shuffled.drop (i * miniBatchSize)).take miniBatchSize)
      else none)

/-- The shuffle of `Train`: `shuffled[v] = inputs[i]` for each `(i, v)` in the
permutation produced by `rand.Perm(inputCount)` (injected here as a plain
list).  The target slice starts as `make([]TrainItem, inputCount)`; writes and
reads out of range cannot occur for a genuine permutation of the right length
and are modelled as no-ops/defaults. -/
def goShuffle (inputs : List TrainItem) (perm : List ℕ) : List TrainItem :=
  perm.enum.foldl
    (fun shuffled iv =>
      shuffled.set iv.2 (inputs.getD iv.1 (TrainItem.mk (InitMatrix 0 0) 0 0)))
    (List.replicate inputs.length (TrainItem.mk (InitMatrix 0 0) 0 0))

/-- The parameters of `Train` that stay fixed across loop iterations.
`doingBestOfN` and `epochs` are the values after the sign normalisation at the
top of `Train`; `oldEta` is the initial `eta`; `perms` injects the random
permutation drawn by each iteration (`rand.Perm`), indexed by the iteration
counter `i`. -/
structure TrainParams where
  F : FloatFuns
  inputs : List TrainItem
  epochs : ℕ
  doingBestOfN : Bool
  miniBatchSize : ℕ
  etaFraction : ℚ
  oldEta : ℚ
  lmbda : ℚ
  testData : List TrainItem
  perms : ℕ → List ℕ

/-- The mutable locals of `Train`'s loop. -/
structure TrainState where
  network : NN
  bestNetwork : NN
  bestCost : ℚ
  bestBefore : ℕ
  eta : ℚ
  i : ℕ
deriving DecidableEq

/-- Result of one pass through `Train`'s `for` body: keep looping, leave the
loop returning the final value of the local `network` variable, panic, or
reach a state the exact model does not represent (a NaN-poisoned
`updateMiniBatch` completion — unreachable from `Train`'s own batching, which
produces no empty batch and calls no update when `inputs` is empty). -/
inductive StepRes where
  | running (st : TrainState)
  | finished (network : NN)
  | panicked
  | notRepresentable
deriving DecidableEq

/-- The per-batch update loop of one `Train` iteration:
`for _, batch := range batches { network.updateMiniBatch(...) }`, threading
the in-place parameter updates. -/
def updateBatches (F : FloatFuns) (eta lmbda : ℚ) (n : ℕ) :
    List (List TrainItem) → NN → UpdResult
  | [], network => UpdResult.ok network
  | batch :: batches, network =>
    match network.updateMiniBatch F batch eta lmbda n with
    | UpdResult.ok network' => updateBatches F eta lmbda n batches network'
    | UpdResult.nanPoisoned => UpdResult.nanPoisoned
    | UpdResult.panicked => UpdResult.panicked

/-- One full iteration body of `Train` (shuffle, batch, per-batch update, cost
on the test data, best-of-N bookkeeping, evaluation for the progress print,
`i++`). -/
def iterBody (p : TrainParams) (st : TrainState) : StepRes :=
  let shuffled := goShuffle p.inputs (p.perms st.i)
  match goBatches shuffled p.miniBatchSize with
  | none => StepRes.panicked
  | some batches =>
    match updateBatches p.F st.eta p.lmbda p.inputs.length batches st.network with
    | UpdResult.panicked => StepRes.panicked
    | UpdResult.nanPoisoned => StepRes.notRepresentable
    | UpdResult.ok network =>
      match network.Cost p.F p.testData with
      | none => StepRes.panicked
      | some cost =>
        let st' : TrainState :=
          if p.doingBestOfN then
            if cost < st.bestCost then
              { st with network := network, bestNetwork := network.Copy,
                        bestCost := cost, bestBefore := 0, i := st.i + 1 }
            else
              { st with network := network, bestBefore := st.bestBefore + 1,
                        i := st.i + 1 }
          else { st with network := network, i := st.i + 1 }
        if 0 < p.testData.length then
          match network.Evaluate p.F p.testData with
          | none => StepRes.panicked
          | some _ => StepRes.running st'
        else StepRes.running st'

/-- The loop-head decision of `Train`: fixed-epoch exit, or the best-of-N
patience check — on the decay path (`etaFraction > 0 && eta*etaFraction >
oldEta`, the comparison being against the *initial* eta) the counter is reset,
`eta` is halved and the iteration body runs from the current parameters;
otherwise the local `network` is assigned the stored snapshot and the loop
breaks. -/
def trainStep (p : TrainParams) (st : TrainState) : StepRes :=
  if p.doingBestOfN = false ∧ p.epochs ≤ st.i then StepRes.finished st.network
  else if p.doingBestOfN = true ∧ p.epochs ≤ st.bestBefore then
    if 0 < p.etaFraction ∧ p.oldEta < st.eta * p.etaFraction then
      iterBody p { st with bestBefore := 0, eta := st.eta / 2 }
    else StepRes.finished st.bestNetwork
  else iterBody p st

/-- Overall result of a `Train` run in the functional model.  `finished`
carries the final value of `Train`'s *local* `network` variable; because the
Go method has a value receiver, this value is NOT what the caller's variable
holds after `Train` returns (the caller keeps the slice headers it passed in,
which see the in-place `updateMiniBatch` writes but not the
`network = bestNetwork` rebinding). -/
inductive TrainRes where
  | finished (network : NN)
  | panicked
  | notRepresentable
  | outOfFuel
deriving DecidableEq

/-- The `for {}` loop of `Train`, with explicit fuel (the Go loop may run
unboundedly in best-of-N mode). -/
def trainLoop (p : TrainParams) : ℕ → TrainState → TrainRes
  | 0, _ => TrainRes.outOfFuel
  | fuel + 1, st =>
    match trainStep p st with
    | StepRes.running st' => trainLoop p fuel st'
    | StepRes.finished network => TrainRes.finished network
    | StepRes.panicked => TrainRes.panicked
    | StepRes.notRepresentable => TrainRes.notRepresentable

/-- `NN.Train`: normalises the epoch sign (`epochs < 0` turns on best-of-N
mode with `|epochs|` as the patience window), computes the initial
`bestCost = network.Cost(testData)` and `bestNetwork = network.Copy()`, and
runs the loop. -/
def NN.Train (network : NN) (F : FloatFuns) (inputs : List TrainItem)
    (epochs : ℤ) (miniBatchSize : ℕ) (eta etaFraction lmbda : ℚ)
    (testData : List TrainItem) (perms : ℕ → List ℕ) (fuel : ℕ) : TrainRes :=
  let doingBestOfN := decide (epochs < 0)
  let epochsAbs := epochs.natAbs
  match network.Cost F testData with
  | none => TrainRes.panicked
  | some bestCost =>
    trainLoop
      ⟨F, inputs, epochsAbs, doingBestOfN, miniBatchSize, etaFraction, eta,
        lmbda, testData, perms⟩
      fuel
      ⟨network, network.Copy, bestCost, 0, eta, 0⟩

end nn

namespace nn

open matrices

/-- The external (JSON) form of an `NN`: the layer-size sequence plus, per
layer transition, the external form of the weight and bias matrices. -/
structure NNExport where
  Layers : List ℕ
  Weights : List MatrixExport
  Biases : List MatrixExport
deriving DecidableEq

/-- `NN.MarshalJSON`. -/
def NN.MarshalJSON (network : NN) : NNExport :=
  ⟨network.layers, network.weights.map Matrix.MarshalJSON,
    network.biases.map Matrix.MarshalJSON⟩

/-- `NN.UnmarshalJSON`. -/
def NN.UnmarshalJSON (e : NNExport) : NN :=
  ⟨e.Layers, e.Weights.map Matrix.UnmarshalJSON, e.Biases.map Matrix.UnmarshalJSON⟩

end nn

open matrices nn

/-- A concrete function bundle used to run the embedding on closed inputs in
the witness theorems (the control-flow facts under test hold for every
bundle). -/
def Fc : FloatFuns := ⟨fun _ => 0, fun x => x⟩

/-- A concrete `[1, 1]` network: one `1×1` weight matrix `[5]` and one `1×1`
bias matrix `[7]`. -/
def net0 : NN := ⟨[1, 1], [⟨1, [5]⟩], [⟨1, [7]⟩]⟩

/-- A concrete training item: input `[0]`, label `0`, one class. -/
def item0 : TrainItem := ⟨⟨1, [0]⟩, 0, 1⟩

/-- Concrete `Train` parameters sitting at the best-of-N patience boundary
with `etaFraction = 0` (the state reached after one non-improving iteration of
`net0.Train` with `epochs = -1`). -/
def p0 : TrainParams := ⟨Fc, [item0], 1, true, 1, 0, 1, 0, [item0], fun _ => [0]⟩

/-- The loop state matching `p0` after one non-improving iteration. -/
def st0 : TrainState := ⟨net0, net0.Copy, -1, 1, 1, 1⟩

namespace matrices

lemma getD_map (f : ℚ → ℚ) : ∀ (xs : List ℚ) (k : ℕ), k < xs.length →
    (xs.map f).getD k 0 = f (xs.getD k 0)
  | [], k, hk => absurd hk (by simp)
  | x :: xs, 0, _ => rfl
  | x :: xs, k + 1, hk => by
    simpa using getD_map f xs k (by simpa using hk)

lemma getD_zipWith (f : ℚ → ℚ → ℚ) : ∀ (xs ys : List ℚ) (k : ℕ),
    k < xs.length → k < ys.length →
    (List.zipWith f xs ys).getD k 0 = f (xs.getD k 0) (ys.getD k 0)
  | [], _, k, hk, _ => absurd hk (by simp)
  | _ :: _, [], k, _, hk' => absurd hk' (by simp)
  | x :: xs, y :: ys, 0, _, _ => rfl
  | x :: xs, y :: ys, k + 1, hk, hk' => by
    simpa using getD_zipWith f xs ys k (by simpa using hk) (by simpa using hk')

lemma getD_range_map (f : ℕ → ℚ) (n k : ℕ) (hk : k < n) :
    ((List.range n).map f).getD k 0 = f k := by
  simp [List.getD, List.getElem?_map, List.getElem?_range, hk]

lemma getD_replicate_zero (n k : ℕ) :
    (List.replicate n (0 : ℚ)).getD k 0 = 0 := by
  induction n generalizing k with
  | zero => simp
  | succ n ih => cases k <;> simp [List.replicate, ih]

lemma getD_set_one (n idx k : ℕ) (hidx : idx < n) (hk : k < n) :
    ((List.replicate n (0 : ℚ)).set idx 1).getD k 0 =
      if k = idx then 1 else 0 := by
  by_cases hki : k = idx
  · subst hki
    simp [List.getD, List.getElem?_set_eq_of_lt, hk]
  · have hne : idx ≠ k := fun h => hki h.symm
    simp [List.getD, List.getElem?_set_ne, hne, hki, List.getElem?_replicate, hk]

/-- Success characterization of the elementwise worker `operate`. -/
lemma operate_some {m n r : Matrix} {f : ℚ → ℚ → ℚ}
    (h : m.operate n f = some r) :
    r.cols = m.cols ∧ r.values = List.zipWith f m.values n.values ∧
    m.values.length = m.Rows * m.Cols ∧ m.values.length ≤ n.values.length ∧
    m.Rows = n.Rows ∧ m.Cols = n.Cols ∧ m.cols ≠ 0 ∧ n.cols ≠ 0 := by
  unfold Matrix.operate at h
  split_ifs at h with h1 h2 h3
  injection h with h4
  subst h4
  exact ⟨rfl, rfl, h3.1, h3.2, h2.1, h2.2,
    fun h0 => h1 (Or.inl h0), fun h0 => h1 (Or.inr h0)⟩

lemma sub_some {m n r : Matrix} (h : m.Sub n = some r) :
    r.cols = m.cols ∧ r.values.length = m.values.length ∧
    m.values.length ≤ n.values.length ∧
    m.values.length = m.Rows * m.Cols ∧ m.Rows = n.Rows ∧ m.cols ≠ 0 ∧
    ∀ k < m.values.length,
      r.values.getD k 0 = m.values.getD k 0 - n.values.getD k 0 := by
  obtain ⟨hc, hv, hlen, hle, hr, hcol, hm, hn⟩ := operate_some h
  refine ⟨hc, ?_, hle, hlen, hr, hm, ?_⟩
  · rw [hv, List.length_zipWith]; omega
  · intro k hk
    rw [hv, getD_zipWith _ _ _ _ hk (lt_of_lt_of_le hk hle)]

end matrices

/-- C7: `MaxAt`/`MinAt` do return the recoverable `EmptyMatrix` error on a
matrix with zero rows (and positive column count), and on non-empty matrices
the index is the first row-major occurrence of the extreme; but the claim that
all four functions fail *recoverably* whenever rows or cols is `0` is false on
the code: `Max`/`Min` read `m.values[index]` before inspecting the error and
panic with an out-of-range index on every empty matrix, and a `0`-column
matrix makes `Rows()` divide by zero, so even `MaxAt`/`MinAt` panic there.
Shown here on the `0×1` matrix (`cols = 1, values = []`) and the `0`-column
matrix (`cols = 0`). -/
theorem C7_max_min_empty_matrix_panics :
    Matrix.MaxAt ⟨1, []⟩ = some (Except.error MatrixError.EmptyMatrix) ∧
    Matrix.MinAt ⟨1, []⟩ = some (Except.error MatrixError.EmptyMatrix) ∧
    Matrix.Max ⟨1, []⟩ = none ∧
    Matrix.Min ⟨1, []⟩ = none ∧
    Matrix.MaxAt ⟨0, []⟩ = none ∧
    Matrix.MinAt ⟨0, []⟩ = none := by
  refine ⟨rfl, rfl, rfl, rfl, rfl, rfl⟩

/-- C3: the batching loop is broken.  With `totalItems = 10` and
`miniBatchSize = 3` the computed batches are `[0..2], [3..5], [6..8]` — the
item at index `9` is in no batch, because the remainder test compares the
batch *index* `i` (not the offset `i*miniBatchSize`) with the item count.
With `totalItems = 8` and `miniBatchSize = 5` the second batch asks for the
slice `[5:10]` of an 8-element list, a Go slice-bounds panic (`none`). -/
theorem C3_batching_drops_items_and_overruns :
    goBatches (List.range 10) 3 = some [[0, 1, 2], [3, 4, 5], [6, 7, 8]] ∧
    (∀ b ∈ [[0, 1, 2], [3, 4, 5], [6, 7, 8]], (9 : ℕ) ∉ b) ∧
    goBatches (List.range 8) 5 = none := by
  refine ⟨by decide, by decide, by decide⟩

/-- C2: `NN.Copy` is not an observationally identical deep copy: the
positional struct literal `NN{layers, biases, weights}` assigns the bias
copies to the `weights` field and vice versa.  On `net0` the copy's weight
list equals the original bias list; on a `[2,1]` network the copy's
`FeedForward` panics on the very first `Dot` (shape mismatch) where the
original returns a value. -/
theorem C2_copy_swaps_weights_and_biases :
    NN.Copy ⟨[1, 1], [⟨1, [5]⟩], [⟨1, [7]⟩]⟩ = ⟨[1, 1], [⟨1, [7]⟩], [⟨1, [5]⟩]⟩ ∧
    (⟨1, [7]⟩ : Matrix) ≠ (⟨1, [5]⟩ : Matrix) ∧
    NN.FeedForward ⟨[2, 1], [⟨1, [1, 1]⟩], [⟨1, [0]⟩]⟩ Fc ⟨2, [1, 2]⟩ =
      some ⟨1, [1]⟩ ∧
    NN.FeedForward (NN.Copy ⟨[2, 1], [⟨1, [1, 1]⟩], [⟨1, [0]⟩]⟩) Fc ⟨2, [1, 2]⟩ =
      none := by
  refine ⟨rfl, ?_, ?_, ?_⟩
  · intro h
    simp only [Matrix.mk.injEq, List.cons.injEq] at h
    norm_num at h
  · norm_num [NN.FeedForward, feedForwardAux, Matrix.Dot, Matrix.Add,
      Matrix.operate, Matrix.Apply, Matrix.Sigmoid, Matrix.Rows, Matrix.Cols,
      Matrix.atU, goSum, Fc, Negate, OnePlus, Invert, List.range,
      List.range.loop]
  · norm_num [NN.Copy, Matrix.Copy, InitMatrixWithValues, NN.FeedForward,
      feedForwardAux, Matrix.Dot, Matrix.Rows, Matrix.Cols]

/-- C8: serialize-then-deserialize is the identity on the structured external
form, for matrices (column count + row-major flat values) and for networks
(layer sizes + weight and bias matrix records); values are carried through
unchanged, hence reproduced exactly. -/
theorem C8_serialization_round_trip :
    (∀ m : Matrix, Matrix.UnmarshalJSON (Matrix.MarshalJSON m) = m) ∧
    (∀ network : NN, NN.UnmarshalJSON (NN.MarshalJSON network) = network) := by
  constructor
  · intro m; cases m; rfl
  · intro network
    cases network with
    | mk layers weights biases =>
      have hid : (Matrix.UnmarshalJSON ∘ Matrix.MarshalJSON) = id := by
        funext m; cases m; rfl
      simp only [NN.MarshalJSON, NN.UnmarshalJSON, List.map_map, hid,
        List.map_id]

/-- C10: `Evaluate` and `Cost` on an empty item list run their loops zero
times and return the accumulated `0` divided by the length `0` — the quotient
`0/0` (a NaN in Go's IEEE arithmetic, the formal quotient `0 / 0` in this
exact-arithmetic model) — with no error, no guard, and no panic. -/
theorem C10_evaluate_cost_empty_inputs (F : FloatFuns) (network : NN) :
    network.Evaluate F [] = some ((0 : ℚ) / (0 : ℚ)) ∧
    network.Cost F [] = some ((0 : ℚ) / (0 : ℚ)) := by
  constructor <;> simp [NN.Evaluate, NN.Cost, List.foldlM]

set_option maxHeartbeats 4000000 in
/-- C1: the stopping rule does fire after exactly `|epochs|` consecutive
non-improving iterations, but the "return the best snapshot" half of the claim
fails on the code.  Concrete run: `net0` (weights `[[5]]`, biases `[[7]]`),
one training/test item, `epochs = -1`, `etaFraction = 0`.  The validation cost
never improves, so the run stops after exactly one non-improving iteration;
the final value of `Train`'s local `network` variable is `bestNetwork`, which
— `Copy` having swapped the parameter lists — has weights `[[7]]` and biases
`[[5]]`, not the best network `net0`.  (And because `Train` has a value
receiver, even this value never reaches the caller: the caller's slices keep
the final iteration's in-place-updated parameters.) -/
theorem C1_bestOfN_result_is_not_the_best_snapshot :
    net0.Train Fc [item0] (-1) 1 1 0 0 [item0] (fun _ => [0]) 5 =
      TrainRes.finished ⟨[1, 1], [⟨1, [7]⟩], [⟨1, [5]⟩]⟩ ∧
    (⟨[1, 1], [⟨1, [7]⟩], [⟨1, [5]⟩]⟩ : NN) ≠ net0 := by
  constructor
  · norm_num [NN.Train, trainLoop, trainStep, iterBody, goShuffle, goBatches,
      batchesCount, NN.updateMiniBatch, NN.updateMiniBatchExact, updateBatches, sumGrads, addInto, updWeights,
      updBiases, zeroGrads, NN.backprop, forwardTrace, backStep, goIndex,
      goSet, NN.Cost, NN.Evaluate, NN.FeedForward, feedForwardAux, NN.Copy,
      Matrix.Copy, Matrix.Dot, Matrix.Add, Matrix.Sub, Matrix.Mult,
      Matrix.MaxAt, Matrix.operate, Matrix.Apply, Matrix.Sigmoid,
      Matrix.SigmoidPrime, Matrix.Sum, Matrix.Rows, Matrix.Cols, Matrix.atU,
      Matrix.Transpose, goSum, OneHotMatrix, InitMatrix, InitMatrixWithValues,
      truncQ, Fc, net0, item0, Negate, OnePlus, OneMinus, Invert, Mult,
      List.foldlM, List.range, List.range.loop, List.range', Int.toNat,
      List.enum, List.enumFrom, List.mapM, List.mapM.loop]
  · intro h
    rw [net0] at h
    simp only [NN.mk.injEq, List.cons.injEq, Matrix.mk.injEq] at h
    norm_num at h

set_option maxHeartbeats 4000000 in
/-- C6 counterexample: at a reachable input the claimed halving condition
`eta * etaFraction > initial eta` holds — initial `eta = -1`,
`etaFraction = -1`, so `eta * etaFraction = 1 > -1` — yet the run stops at the
patience boundary (returning the stored snapshot) instead of halving `eta` and
continuing, because the code additionally requires `etaFraction > 0`.  The
cost never improves, so the patience boundary is reached after one
iteration. -/
theorem C6_decay_condition_counterexample :
    (-1 : ℚ) * (-1 : ℚ) > (-1 : ℚ) ∧
    net0.Train Fc [item0] (-1) 1 (-1) (-1) 0 [item0] (fun _ => [0]) 5 =
      TrainRes.finished ⟨[1, 1], [⟨1, [7]⟩], [⟨1, [5]⟩]⟩ := by
  constructor
  · norm_num
  · norm_num [NN.Train, trainLoop, trainStep, iterBody, goShuffle, goBatches,
      batchesCount, NN.updateMiniBatch, NN.updateMiniBatchExact, updateBatches, sumGrads, addInto, updWeights,
      updBiases, zeroGrads, NN.backprop, forwardTrace, backStep, goIndex,
      goSet, NN.Cost, NN.Evaluate, NN.FeedForward, feedForwardAux, NN.Copy,
      Matrix.Copy, Matrix.Dot, Matrix.Add, Matrix.Sub, Matrix.Mult,
      Matrix.MaxAt, Matrix.operate, Matrix.Apply, Matrix.Sigmoid,
      Matrix.SigmoidPrime, Matrix.Sum, Matrix.Rows, Matrix.Cols, Matrix.atU,
      Matrix.Transpose, goSum, OneHotMatrix, InitMatrix, InitMatrixWithValues,
      truncQ, Fc, net0, item0, Negate, OnePlus, OneMinus, Invert, Mult,
      List.foldlM, List.range, List.range.loop, List.range', Int.toNat,
      List.enum, List.enumFrom, List.mapM, List.mapM.loop]

namespace nn

open matrices

lemma zipWith_sub_map_id_zero (f g : ℚ → ℚ) (hf : ∀ x, f x = x)
    (hg : ∀ y, g y = 0) :
    ∀ (xs ys : List ℚ), xs.length ≤ ys.length →
      List.zipWith (fun a b => a - b) (xs.map f) (ys.map g) = xs
  | [], _, _ => by simp
  | x :: xs, [], h => absurd h (by simp)
  | x :: xs, y :: ys, h => by
    simp only [List.map_cons, List.zipWith_cons_cons, hf, hg, sub_zero]
    exact congrArg (x :: ·)
      (zipWith_sub_map_id_zero f g hf hg xs ys (by simpa using h))

lemma zipWith_sub_map_zero (g : ℚ → ℚ) (hg : ∀ y, g y = 0) :
    ∀ (xs ys : List ℚ), xs.length ≤ ys.length →
      List.zipWith (fun a b => a - b) xs (ys.map g) = xs
  | [], _, _ => by simp
  | x :: xs, [], h => absurd h (by simp)
  | x :: xs, y :: ys, h => by
    simp only [List.map_cons, List.zipWith_cons_cons, hg, sub_zero]
    exact congrArg (x :: ·) (zipWith_sub_map_zero g hg xs ys (by simpa using h))

lemma apply_sub_apply_id {w c r : Matrix} (reg mult : ℚ → ℚ)
    (hreg : ∀ x, reg x = x) (hmult : ∀ y, mult y = 0)
    (h : (w.Apply reg).Sub (c.Apply mult) = some r) : r = w := by
  obtain ⟨hc, hv, -, hle, -, -, -, -⟩ := operate_some h
  cases w with
  | mk wc wv =>
    cases r with
    | mk rc rv =>
      simp only [Matrix.Apply] at hc hv hle
      simp only [List.length_map] at hle
      simp only [Matrix.mk.injEq]
      exact ⟨hc, by rw [hv]; exact zipWith_sub_map_id_zero reg mult hreg hmult _ _ hle⟩

lemma sub_apply_id {b c r : Matrix} (mult : ℚ → ℚ) (hmult : ∀ y, mult y = 0)
    (h : b.Sub (c.Apply mult) = some r) : r = b := by
  obtain ⟨hc, hv, -, hle, -, -, -, -⟩ := operate_some h
  cases b with
  | mk bc bv =>
    cases r with
    | mk rc rv =>
      simp only [Matrix.Apply] at hc hv hle
      simp only [List.length_map] at hle
      simp only [Matrix.mk.injEq]
      exact ⟨hc, by rw [hv]; exact zipWith_sub_map_zero mult hmult _ _ hle⟩

lemma updWeights_id (reg mult : ℚ → ℚ) (hreg : ∀ x, reg x = x)
    (hmult : ∀ y, mult y = 0) :
    ∀ (ws cs out : List Matrix), updWeights reg mult ws cs = some out → out = ws
  | ws, [], out, h => by
    rw [updWeights] at h
    exact (Option.some.inj h).symm
  | [], c :: cs, out, h => by
    rw [updWeights] at h
    exact Option.noConfusion h
  | w :: ws, c :: cs, out, h => by
    rw [updWeights] at h
    simp only [bind, Option.bind_eq_some, Option.pure_def, Option.some.injEq] at h
    obtain ⟨r, hr, rest, hrest, hout⟩ := h
    rw [← hout, apply_sub_apply_id reg mult hreg hmult hr,
      updWeights_id reg mult hreg hmult ws cs rest hrest]

lemma updBiases_id (mult : ℚ → ℚ) (hmult : ∀ y, mult y = 0) :
    ∀ (bs cs out : List Matrix), updBiases mult bs cs = some out → out = bs
  | bs, [], out, h => by
    rw [updBiases] at h
    exact (Option.some.inj h).symm
  | [], c :: cs, out, h => by
    rw [updBiases] at h
    exact Option.noConfusion h
  | b :: bs, c :: cs, out, h => by
    rw [updBiases] at h
    simp only [bind, Option.bind_eq_some, Option.pure_def, Option.some.injEq] at h
    obtain ⟨r, hr, rest, hrest, hout⟩ := h
    rw [← hout, sub_apply_id mult hmult hr,
      updBiases_id mult hmult bs cs rest hrest]

lemma updateMiniBatch_ok {network network' : NN} {F : FloatFuns}
    {batch : List TrainItem} {eta lmbda : ℚ} {n : ℕ}
    (h : network.updateMiniBatch F batch eta lmbda n = UpdResult.ok network') :
    network.updateMiniBatchExact F batch eta lmbda n = some network' ∧
    batch ≠ [] ∧ 0 < n := by
  rw [NN.updateMiniBatch] at h
  split at h
  next => exact UpdResult.noConfusion h
  next network'' heq =>
    split_ifs at h with hguard
    injection h with h2
    subst h2
    push_neg at hguard
    exact ⟨heq, fun hb => hguard.1 (by simp [hb]), Nat.pos_of_ne_zero hguard.2⟩

end nn

/-- C9 counterexample: the claim quantifies over *any* batch and training-set
size, but at the empty batch (and likewise at `n = 0`) the Go code does not
leave the parameters unchanged: `eta/float64(0) = 0.0/0.0` is NaN (resp.
`1 - 0*lmbda/0.0 = 1 - NaN`), `Apply` turns the zero accumulators into NaN
matrices, and `Sub` writes NaN into every weight and bias entry — on `net0`
the weight `5` becomes NaN.  The run completes NaN-poisoned instead of
returning the unchanged network. -/
theorem C9_eta_zero_empty_batch_counterexample :
    net0.updateMiniBatch Fc [] 0 0 1 = UpdResult.nanPoisoned ∧
    net0.updateMiniBatch Fc [item0] 0 0 0 = UpdResult.nanPoisoned := by
  constructor <;>
    norm_num [NN.updateMiniBatch, NN.updateMiniBatchExact, sumGrads, addInto,
      updWeights, updBiases, zeroGrads, NN.backprop, forwardTrace, backStep,
      goIndex, goSet, Matrix.Dot, Matrix.Add, Matrix.Sub, Matrix.Mult,
      Matrix.operate, Matrix.Apply, Matrix.Sigmoid, Matrix.SigmoidPrime,
      Matrix.Rows, Matrix.Cols, Matrix.atU, Matrix.Transpose, goSum,
      OneHotMatrix, InitMatrix, InitMatrixWithValues, truncQ, Fc, net0, item0,
      Negate, OnePlus, OneMinus, Invert, Mult, List.foldlM, List.range,
      List.range.loop, List.range', Int.toNat]

/-- C9 (amended): `updateMiniBatch` with `eta = 0` on a *nonempty* batch with
a *positive* training-set size leaves every weight and bias matrix unchanged
whenever it completes, for any lambda: the regularization factor is
`1 - 0*lambda/n = 1` and the gradient step factor is `0/len(batch) = 0`, so
each matrix is mapped to itself.  (With an empty batch or a zero training-set
size the `0/0` factor is NaN and every parameter entry is overwritten — the
counterexample above.) -/
theorem C9_updateMiniBatch_eta_zero_identity (F : FloatFuns)
    (network network' : NN) (batch : List TrainItem) (lmbda : ℚ) (n : ℕ)
    (hbatch : batch ≠ []) (hn : 0 < n)
    (h : network.updateMiniBatch F batch 0 lmbda n = UpdResult.ok network') :
    network'.weights = network.weights ∧ network'.biases = network.biases := by
  obtain ⟨hx, -, -⟩ := updateMiniBatch_ok h
  rw [NN.updateMiniBatchExact] at hx
  simp only [bind, Option.bind_eq_some, Option.pure_def, Option.some.injEq] at hx
  obtain ⟨⟨cxw, cxb⟩, hsum, weights', hw, biases', hb, hout⟩ := hx
  have hreg : ∀ x, Mult (1 - 0 * lmbda / (n : ℚ)) x = x := by
    intro x; simp [Mult]
  have hmult : ∀ y, Mult ((0 : ℚ) / (batch.length : ℚ)) y = 0 := by
    intro y; simp [Mult]
  constructor
  · rw [← hout]
    exact updWeights_id _ _ hreg hmult _ _ _ hw
  · rw [← hout]
    exact updBiases_id _ hmult _ _ _ hb

/-- Witness for C9's amended theorem: the hypotheses are satisfiable — on
`net0` with the one-item batch and `n = 1`, `updateMiniBatch` with `eta = 0`
completes (returning `net0` itself), and the conclusion holds there. -/
theorem C9_updateMiniBatch_eta_zero_identity_witness :
    ([item0] : List TrainItem) ≠ [] ∧ 0 < 1 ∧
    net0.updateMiniBatch Fc [item0] 0 0 1 = UpdResult.ok net0 ∧
    net0.weights = net0.weights ∧ net0.biases = net0.biases := by
  have h : net0.updateMiniBatch Fc [item0] 0 0 1 = UpdResult.ok net0 := by
    norm_num [NN.updateMiniBatch, NN.updateMiniBatchExact, sumGrads, addInto, updWeights, updBiases,
      zeroGrads, NN.backprop, forwardTrace, backStep, goIndex, goSet,
      Matrix.Dot, Matrix.Add, Matrix.Sub, Matrix.Mult, Matrix.operate,
      Matrix.Apply, Matrix.Sigmoid, Matrix.SigmoidPrime, Matrix.Rows,
      Matrix.Cols, Matrix.atU, Matrix.Transpose, goSum, OneHotMatrix,
      InitMatrix, InitMatrixWithValues, truncQ, Fc, net0, item0, Negate,
      OnePlus, OneMinus, Invert, Mult, List.foldlM, List.range,
      List.range.loop, List.range', Int.toNat]
  exact ⟨by simp, by norm_num, h,
    C9_updateMiniBatch_eta_zero_identity Fc net0 net0 [item0] 0 1 (by simp)
      (by norm_num) h⟩

namespace nn

lemma iterBody_ne_finished (p : TrainParams) (st : TrainState) (network : NN) :
    iterBody p st ≠ StepRes.finished network := by
  intro h
  rw [iterBody] at h
  repeat' split at h
  all_goals exact StepRes.noConfusion h

end nn

/-- C6 (amended): on the best-of-N decay path, when the no-improvement counter
has reached the patience window, eta is halved and the counter reset exactly
when *`etaFraction > 0` and* `eta * etaFraction` exceeds the original initial
eta (`oldEta` — never the current eta), and the iteration then proceeds from
the current parameters (the state passed on keeps `st.network`, not the
snapshot); otherwise the loop terminates with the stored best-network
snapshot.  The claim as frozen omits the `etaFraction > 0` conjunct, which the
counterexample shows to matter. -/
theorem C6_decay_policy_characterization (p : TrainParams) (st : TrainState)
    (hB : p.doingBestOfN = true) (hc : p.epochs ≤ st.bestBefore) :
    (0 < p.etaFraction ∧ p.oldEta < st.eta * p.etaFraction →
      trainStep p st =
        iterBody p { st with bestBefore := 0, eta := st.eta / 2 } ∧
      ∀ network, trainStep p st ≠ StepRes.finished network) ∧
    (¬(0 < p.etaFraction ∧ p.oldEta < st.eta * p.etaFraction) →
      trainStep p st = StepRes.finished st.bestNetwork) := by
  have h1 : ¬(p.doingBestOfN = false ∧ p.epochs ≤ st.i) := by simp [hB]
  constructor
  · intro hcond
    have hstep : trainStep p st =
        iterBody p { st with bestBefore := 0, eta := st.eta / 2 } := by
      rw [trainStep, if_neg h1, if_pos ⟨hB, hc⟩, if_pos hcond]
    exact ⟨hstep, fun network => hstep ▸ iterBody_ne_finished p _ network⟩
  · intro hcond
    rw [trainStep, if_neg h1, if_pos ⟨hB, hc⟩, if_neg hcond]

/-- Witness for C6's amended theorem: the hypotheses hold at the concrete
parameters `p0`/state `st0` (best-of-N mode, patience reached), and there —
`etaFraction = 0` — the characterization yields termination with the stored
snapshot. -/
theorem C6_decay_policy_characterization_witness :
    p0.doingBestOfN = true ∧ p0.epochs ≤ st0.bestBefore ∧
    ((0 < p0.etaFraction ∧ p0.oldEta < st0.eta * p0.etaFraction →
      trainStep p0 st0 =
        iterBody p0 { st0 with bestBefore := 0, eta := st0.eta / 2 } ∧
      ∀ network, trainStep p0 st0 ≠ StepRes.finished network) ∧
    (¬(0 < p0.etaFraction ∧ p0.oldEta < st0.eta * p0.etaFraction) →
      trainStep p0 st0 = StepRes.finished st0.bestNetwork)) :=
  ⟨rfl, by norm_num [p0, st0],
    C6_decay_policy_characterization p0 st0 rfl (by norm_num [p0, st0])⟩

namespace nn

open matrices

lemma zeroGrads_getD (ms : List Matrix) :
    ∀ m ∈ zeroGrads ms, ∀ k, m.values.getD k 0 = 0 := by
  intro m hm k
  simp only [zeroGrads, List.mem_map] at hm
  obtain ⟨m0, -, rfl⟩ := hm
  simp [InitMatrix, getD_replicate_zero]

lemma zeroGrads_length (ms : List Matrix) :
    (zeroGrads ms).length = ms.length := by
  simp [zeroGrads]

lemma addInto_length : ∀ (cx nablas out : List Matrix),
    addInto cx nablas = some out → out.length = cx.length
  | cx, [], out, h => by
    rw [addInto] at h
    rw [← Option.some.inj h]
  | [], n :: ns, out, h => by
    rw [addInto] at h
    exact Option.noConfusion h
  | c :: cx, n :: ns, out, h => by
    rw [addInto] at h
    simp only [bind, Option.bind_eq_some, Option.pure_def, Option.some.injEq] at h
    obtain ⟨s, hs, rest, hrest, hout⟩ := h
    rw [← hout]
    simp [addInto_length cx ns rest hrest]

lemma sumGrads_length (F : FloatFuns) (network : NN) :
    ∀ (batch : List TrainItem) (cxw0 cxb0 cxw cxb : List Matrix),
      sumGrads F network batch cxw0 cxb0 = some (cxw, cxb) →
      cxw.length = cxw0.length ∧ cxb.length = cxb0.length := by
  intro batch
  induction batch with
  | nil =>
    intro cxw0 cxb0 cxw cxb h
    rw [sumGrads, List.foldlM_nil] at h
    have h2 := Option.some.inj h
    injection h2 with ha hb
    subst ha; subst hb
    exact ⟨rfl, rfl⟩
  | cons item rest ih =>
    intro cxw0 cxb0 cxw cxb h
    rw [sumGrads, List.foldlM_cons] at h
    simp only [bind, Option.bind_eq_some] at h
    obtain ⟨⟨cxw1, cxb1⟩, hstep, hfold⟩ := h
    obtain ⟨⟨nW, nB⟩, hbp, hstep'⟩ := hstep
    simp only [Option.bind_eq_some, Option.pure_def, Option.some.injEq] at hstep'
    obtain ⟨cxw1', h1, cxb1', h2, hpair⟩ := hstep'
    injection hpair with he1 he2
    subst he1; subst he2
    have hrec := ih cxw1' cxb1' cxw cxb (by rw [sumGrads]; exact hfold)
    have hl1 := addInto_length cxw0 nW cxw1' h1
    have hl2 := addInto_length cxb0 nB cxb1' h2
    omega

lemma apply_sub_apply_getD {w c r : Matrix} (reg mult : ℚ → ℚ)
    (h : (w.Apply reg).Sub (c.Apply mult) = some r) :
    r.cols = w.cols ∧ r.values.length = w.values.length ∧
    ∀ k < w.values.length,
      r.values.getD k 0 = reg (w.values.getD k 0) - mult (c.values.getD k 0) := by
  obtain ⟨hc, hv, -, hle, -, -, -, -⟩ := operate_some h
  simp only [Matrix.Apply, List.length_map] at hc hv hle
  refine ⟨hc, ?_, ?_⟩
  · rw [hv, List.length_zipWith, List.length_map, List.length_map]
    omega
  · intro k hk
    rw [hv, getD_zipWith _ _ _ _ (by simpa using hk)
      (by simpa using lt_of_lt_of_le hk hle)]
    rw [getD_map _ _ _ hk, getD_map _ _ _ (lt_of_lt_of_le hk hle)]

lemma sub_apply_getD {b c r : Matrix} (mult : ℚ → ℚ)
    (h : b.Sub (c.Apply mult) = some r) :
    r.cols = b.cols ∧ r.values.length = b.values.length ∧
    ∀ k < b.values.length,
      r.values.getD k 0 = b.values.getD k 0 - mult (c.values.getD k 0) := by
  obtain ⟨hc, hv, -, hle, -, -, -, -⟩ := operate_some h
  simp only [Matrix.Apply, List.length_map] at hc hv hle
  refine ⟨hc, ?_, ?_⟩
  · rw [hv, List.length_zipWith, List.length_map]
    omega
  · intro k hk
    rw [hv, getD_zipWith _ _ _ _ hk
      (by simpa using lt_of_lt_of_le hk hle)]
    rw [getD_map _ _ _ (lt_of_lt_of_le hk hle)]

lemma updWeights_get (reg mult : ℚ → ℚ) :
    ∀ (ws cs out : List Matrix), updWeights reg mult ws cs = some out →
      out.length = ws.length ∧
      ∀ i w c, ws.get? i = some w → cs.get? i = some c →
        ∃ r, out.get? i = some r ∧ (w.Apply reg).Sub (c.Apply mult) = some r
  | ws, [], out, h => by
    rw [updWeights] at h
    rw [← Option.some.inj h]
    exact ⟨rfl, fun i w c _ hcs => by simp at hcs⟩
  | [], c :: cs, out, h => by
    rw [updWeights] at h
    exact Option.noConfusion h
  | w :: ws, c :: cs, out, h => by
    rw [updWeights] at h
    simp only [bind, Option.bind_eq_some, Option.pure_def, Option.some.injEq] at h
    obtain ⟨r, hr, rest, hrest, hout⟩ := h
    obtain ⟨hlen, hget⟩ := updWeights_get reg mult ws cs rest hrest
    rw [← hout]
    refine ⟨by simp [hlen], ?_⟩
    intro i w' c' hwi hci
    cases i with
    | zero =>
      cases Option.some.inj hwi
      cases Option.some.inj hci
      exact ⟨r, rfl, hr⟩
    | succ i =>
      simpa using hget i w' c' (by simpa using hwi) (by simpa using hci)

lemma updBiases_get (mult : ℚ → ℚ) :
    ∀ (bs cs out : List Matrix), updBiases mult bs cs = some out →
      out.length = bs.length ∧
      ∀ i b c, bs.get? i = some b → cs.get? i = some c →
        ∃ r, out.get? i = some r ∧ b.Sub (c.Apply mult) = some r
  | bs, [], out, h => by
    rw [updBiases] at h
    rw [← Option.some.inj h]
    exact ⟨rfl, fun i b c _ hcs => by simp at hcs⟩
  | [], c :: cs, out, h => by
    rw [updBiases] at h
    exact Option.noConfusion h
  | b :: bs, c :: cs, out, h => by
    rw [updBiases] at h
    simp only [bind, Option.bind_eq_some, Option.pure_def, Option.some.injEq] at h
    obtain ⟨r, hr, rest, hrest, hout⟩ := h
    obtain ⟨hlen, hget⟩ := updBiases_get mult bs cs rest hrest
    rw [← hout]
    refine ⟨by simp [hlen], ?_⟩
    intro i b' c' hbi hci
    cases i with
    | zero =>
      cases Option.some.inj hbi
      cases Option.some.inj hci
      exact ⟨r, rfl, hr⟩
    | succ i =>
      simpa using hget i b' c' (by simpa using hbi) (by simpa using hci)

end nn

/-- C4: whenever `updateMiniBatch` completes, the per-item gradients summed
over the batch into the zero-initialized accumulators (`sumGrads` applied to
`zeroGrads`, whose every entry is `0`) determine the new parameters
elementwise: `weights[i][k] = weights[i][k] * (1 - eta*lmbda/n) -
cxw[i][k] * (eta/len(batch))` — the L2 decay factor uses the full training-set
size `n`, the gradient step is averaged over the batch — and
`biases[i][k] = biases[i][k] - cxb[i][k] * (eta/len(batch))` with no
regularization factor. -/
theorem C4_updateMiniBatch_formula (F : FloatFuns) (network network' : NN)
    (batch : List TrainItem) (eta lmbda : ℚ) (n : ℕ)
    (h : network.updateMiniBatch F batch eta lmbda n = UpdResult.ok network') :
    ∃ cxw cxb,
      sumGrads F network batch (zeroGrads network.weights)
          (zeroGrads network.biases) = some (cxw, cxb) ∧
      (∀ m ∈ zeroGrads network.weights, ∀ k, m.values.getD k 0 = 0) ∧
      (∀ m ∈ zeroGrads network.biases, ∀ k, m.values.getD k 0 = 0) ∧
      cxw.length = network.weights.length ∧
      cxb.length = network.biases.length ∧
      network'.layers = network.layers ∧
      network'.weights.length = network.weights.length ∧
      network'.biases.length = network.biases.length ∧
      (∀ i w c, network.weights.get? i = some w → cxw.get? i = some c →
        ∃ w', network'.weights.get? i = some w' ∧ w'.cols = w.cols ∧
          w'.values.length = w.values.length ∧
          ∀ k < w.values.length,
            w'.values.getD k 0 =
              w.values.getD k 0 * (1 - eta * lmbda / (n : ℚ)) -
                c.values.getD k 0 * (eta / (batch.length : ℚ))) ∧
      (∀ i b c, network.biases.get? i = some b → cxb.get? i = some c →
        ∃ b', network'.biases.get? i = some b' ∧ b'.cols = b.cols ∧
          b'.values.length = b.values.length ∧
          ∀ k < b.values.length,
            b'.values.getD k 0 =
              b.values.getD k 0 - c.values.getD k 0 * (eta / (batch.length : ℚ))) := by
  obtain ⟨hx, -, -⟩ := updateMiniBatch_ok h
  rw [NN.updateMiniBatchExact] at hx
  simp only [bind, Option.bind_eq_some, Option.pure_def, Option.some.injEq] at hx
  obtain ⟨⟨cxw, cxb⟩, hsum, weights', hw, biases', hb, hout⟩ := hx
  obtain ⟨hwlen, hwget⟩ := updWeights_get _ _ network.weights cxw weights' hw
  obtain ⟨hblen, hbget⟩ := updBiases_get _ network.biases cxb biases' hb
  obtain ⟨hcl1, hcl2⟩ := sumGrads_length F network batch _ _ cxw cxb hsum
  refine ⟨cxw, cxb, hsum, zeroGrads_getD _, zeroGrads_getD _,
    by rw [hcl1, zeroGrads_length], by rw [hcl2, zeroGrads_length],
    by rw [← hout], by rw [← hout]; exact hwlen, by rw [← hout]; exact hblen,
    ?_, ?_⟩
  · intro i w c hwi hci
    obtain ⟨r, hri, hr⟩ := hwget i w c hwi hci
    obtain ⟨hcols, hlen, hgetD⟩ := apply_sub_apply_getD _ _ hr
    refine ⟨r, by rw [← hout]; exact hri, hcols, hlen, ?_⟩
    intro k hk
    rw [hgetD k hk]
    simp only [Mult]
    ring
  · intro i b c hbi hci
    obtain ⟨r, hri, hr⟩ := hbget i b c hbi hci
    obtain ⟨hcols, hlen, hgetD⟩ := sub_apply_getD _ hr
    refine ⟨r, by rw [← hout]; exact hri, hcols, hlen, ?_⟩
    intro k hk
    rw [hgetD k hk]
    simp only [Mult]
    ring

/-- Witness for C4: the hypothesis is satisfiable — on `net0` with the
one-item batch, `eta = 1`, `lmbda = 0`, `n = 1`, `updateMiniBatch` succeeds
(the gradients vanish, so the result is `net0` itself) and the elementwise
update formulas hold there. -/
theorem C4_updateMiniBatch_formula_witness :
    net0.updateMiniBatch Fc [item0] 1 0 1 = UpdResult.ok net0 ∧
    (∃ cxw cxb,
      sumGrads Fc net0 [item0] (zeroGrads net0.weights)
          (zeroGrads net0.biases) = some (cxw, cxb) ∧
      (∀ m ∈ zeroGrads net0.weights, ∀ k, m.values.getD k 0 = 0) ∧
      (∀ m ∈ zeroGrads net0.biases, ∀ k, m.values.getD k 0 = 0) ∧
      cxw.length = net0.weights.length ∧
      cxb.length = net0.biases.length ∧
      net0.layers = net0.layers ∧
      net0.weights.length = net0.weights.length ∧
      net0.biases.length = net0.biases.length ∧
      (∀ i w c, net0.weights.get? i = some w → cxw.get? i = some c →
        ∃ w', net0.weights.get? i = some w' ∧ w'.cols = w.cols ∧
          w'.values.length = w.values.length ∧
          ∀ k < w.values.length,
            w'.values.getD k 0 =
              w.values.getD k 0 * (1 - 1 * 0 / ((1 : ℕ) : ℚ)) -
                c.values.getD k 0 * (1 / (([item0].length : ℕ) : ℚ))) ∧
      (∀ i b c, net0.biases.get? i = some b → cxb.get? i = some c →
        ∃ b', net0.biases.get? i = some b' ∧ b'.cols = b.cols ∧
          b'.values.length = b.values.length ∧
          ∀ k < b.values.length,
            b'.values.getD k 0 =
              b.values.getD k 0 - c.values.getD k 0 * (1 / (([item0].length : ℕ) : ℚ)))) := by
  have h : net0.updateMiniBatch Fc [item0] 1 0 1 = UpdResult.ok net0 := by
    norm_num [NN.updateMiniBatch, NN.updateMiniBatchExact, sumGrads, addInto, updWeights, updBiases,
      zeroGrads, NN.backprop, forwardTrace, backStep, goIndex, goSet,
      Matrix.Dot, Matrix.Add, Matrix.Sub, Matrix.Mult, Matrix.operate,
      Matrix.Apply, Matrix.Sigmoid, Matrix.SigmoidPrime, Matrix.Rows,
      Matrix.Cols, Matrix.atU, Matrix.Transpose, goSum, OneHotMatrix,
      InitMatrix, InitMatrixWithValues, truncQ, Fc, net0, item0, Negate,
      OnePlus, OneMinus, Invert, Mult, List.foldlM, List.range,
      List.range.loop, List.range', Int.toNat]
  exact ⟨h, C4_updateMiniBatch_formula Fc net0 net0 [item0] 1 0 1 h⟩

namespace nn

open matrices

lemma goIndex_some {α : Type} {xs : List α} {i : ℤ} {v : α}
    (h : goIndex xs i = some v) : 0 ≤ i ∧ xs.get? i.toNat = some v := by
  rw [goIndex] at h
  split_ifs at h with h1
  exact ⟨h1, h⟩

lemma goSet_some {α : Type} {xs : List α} {i : ℤ} {v : α} {out : List α}
    (h : goSet xs i v = some out) :
    0 ≤ i ∧ i < (xs.length : ℤ) ∧ out = xs.set i.toNat v := by
  rw [goSet] at h
  split_ifs at h with h1
  exact ⟨h1.1, h1.2, (Option.some.inj h).symm⟩

lemma backStep_preserves {F : FloatFuns} {network : NN}
    {zs activations : List Matrix} {st st' : Matrix × List Matrix × List Matrix}
    {l : ℕ} (hl : 2 ≤ l)
    (h : backStep F network zs activations st l = some st') :
    st'.2.1.length = st.2.1.length ∧ st'.2.2.length = st.2.2.length ∧
    st'.2.1.get? (st.2.1.length - 1) = st.2.1.get? (st.2.1.length - 1) ∧
    st'.2.2.get? (st.2.2.length - 1) = st.2.2.get? (st.2.2.length - 1) := by
  rw [backStep] at h
  simp only [bind, Option.bind_eq_some, Option.pure_def, Option.some.injEq] at h
  obtain ⟨z, hz, sp, hsp, wNext, hwn, dotted, hdot, delta, hdl, nB, hnB,
    aPrev, hap, nw, hnw, nW, hnW, hst'⟩ := h
  obtain ⟨hB0, hB1, hBset⟩ := goSet_some hnB
  obtain ⟨hW0, hW1, hWset⟩ := goSet_some hnW
  have hBl : l ≤ st.2.2.length := by omega
  have hWl : l ≤ st.2.1.length := by omega
  have hBt : ((st.2.2.length : ℤ) - l).toNat = st.2.2.length - l := by omega
  have hWt : ((st.2.1.length : ℤ) - l).toNat = st.2.1.length - l := by omega
  rw [← hst']
  subst hBset
  subst hWset
  refine ⟨by simp [hWt], by simp [hBt], ?_, ?_⟩
  · rw [hWt]
    exact List.get?_set_ne nw st.2.1 (by omega)
  · rw [hBt]
    exact List.get?_set_ne delta st.2.2 (by omega)

lemma backLoop_preserves {F : FloatFuns} {network : NN}
    {zs activations : List Matrix} :
    ∀ (ls : List ℕ), (∀ l ∈ ls, 2 ≤ l) →
      ∀ (st st' : Matrix × List Matrix × List Matrix),
      List.foldlM (backStep F network zs activations) st ls = some st' →
      st'.2.1.length = st.2.1.length ∧ st'.2.2.length = st.2.2.length ∧
      st'.2.1.get? (st.2.1.length - 1) = st.2.1.get? (st.2.1.length - 1) ∧
      st'.2.2.get? (st.2.2.length - 1) = st.2.2.get? (st.2.2.length - 1) := by
  intro ls
  induction ls with
  | nil =>
    intro _ st st' h
    rw [List.foldlM_nil] at h
    cases Option.some.inj h
    exact ⟨rfl, rfl, rfl, rfl⟩
  | cons l ls ih =>
    intro hmem st st' h
    rw [List.foldlM_cons] at h
    simp only [bind, Option.bind_eq_some] at h
    obtain ⟨st1, hstep, hfold⟩ := h
    obtain ⟨e1, e2, e3, e4⟩ := backStep_preserves (hmem l (by simp)) hstep
    obtain ⟨f1, f2, f3, f4⟩ := ih (fun x hx => hmem x (by simp [hx])) st1 st' hfold
    rw [e1] at f1 f3
    rw [e2] at f2 f4
    exact ⟨f1, f2, f3.trans e3, f4.trans e4⟩

lemma oneHotMatrix_some {rows cols : ℕ} {sr sc : ℤ} {y : Matrix}
    (h : OneHotMatrix rows cols sr sc = some y) :
    0 ≤ sr ∧ 0 ≤ sc ∧ sc.toNat < cols ∧ sr < ((rows * cols) / cols : ℕ) ∧
    y.cols = cols ∧
    y.values = (List.replicate (rows * cols) 0).set (sr.toNat * cols + sc.toNat) 1 := by
  rw [OneHotMatrix] at h
  split_ifs at h with h1
  obtain ⟨ha, hb, hc, hd⟩ := h1
  cases Option.some.inj h
  simp only [InitMatrix, Matrix.Cols, Matrix.Rows, List.length_replicate] at hc hd
  exact ⟨ha, hb, by omega, by omega, rfl, rfl⟩

lemma transpose_row {m : Matrix} (h1 : m.Rows = 1) :
    m.Transpose.cols = 1 ∧ m.Transpose.values.length = m.Cols ∧
    ∀ i < m.Cols, m.Transpose.values.getD i 0 = m.values.getD i 0 := by
  rw [Matrix.Transpose]
  refine ⟨by simp [h1], by simp [h1], ?_⟩
  intro i hi
  simp only [h1, mul_one]
  rw [getD_range_map _ _ _ hi]
  simp [Matrix.atU, Nat.mod_one, Nat.div_one, h1]

lemma dot_shape {t d r : Matrix} (h : t.Dot d = some r) :
    d.cols ≠ 0 ∧ t.cols ≠ 0 ∧ t.Cols = d.Rows := by
  rw [Matrix.Dot] at h
  split_ifs at h with h1 h2 h3
  exact ⟨h1, h3, h2⟩

lemma dot_single_col {t d r : Matrix} (ht : t.cols = 1)
    (h : t.Dot d = some r) :
    r.cols = d.cols ∧ r.values.length = t.values.length * d.Cols ∧
    ∀ i < t.values.length, ∀ j < d.Cols,
      r.values.getD (i * d.Cols + j) 0 =
        t.values.getD i 0 * d.values.getD j 0 := by
  have hd0 : d.cols ≠ 0 := (dot_shape h).1
  rw [Matrix.Dot] at h
  split_ifs at h with h1 h2 h3
  cases Option.some.inj h
  have htr : t.Rows = t.values.length := by
    simp [Matrix.Rows, ht]
  have htc : t.Cols = 1 := ht
  refine ⟨rfl, by simp [htr], ?_⟩
  intro i hi j hj
  have hdC : 0 < d.Cols := Nat.pos_of_ne_zero hd0
  have hk : i * d.Cols + j < t.Rows * d.Cols := by
    rw [htr]
    calc i * d.Cols + j < i * d.Cols + d.Cols := by omega
    _ = (i + 1) * d.Cols := by ring
    _ ≤ t.values.length * d.Cols := Nat.mul_le_mul_right d.Cols hi
  rw [getD_range_map _ _ _ hk]
  have hdiv : (i * d.Cols + j) / d.Cols = i := by
    rw [add_comm, Nat.add_mul_div_right _ _ hdC, Nat.div_eq_of_lt hj, zero_add]
  have hmod : (i * d.Cols + j) % d.Cols = j := by
    rw [add_comm, Nat.add_mul_mod_self_right, Nat.mod_eq_of_lt hj]
  rw [hdiv, hmod, htc]
  have hr1 : List.range 1 = [0] := rfl
  rw [hr1]
  simp [goSum, Matrix.atU, ht]

end nn

/-- C5: for every item on which `backprop` completes, the output-layer error
is `delta = activations[last] - y` elementwise — no `SigmoidPrime` factor is
applied at the output layer — where `y` is the one-hot row of width
`item.Distinct` with a `1` exactly at the (truncated) label index;
`nablaB[last] = delta` and `nablaW[last] = transpose(activations[last-1]).
Dot(delta)`, whose `(i,j)` entry is `activations[last-1][i] * delta[j]`. -/
theorem C5_backprop_output_layer (F : FloatFuns) (network : NN)
    (item : TrainItem) (nablaW nablaB : List Matrix)
    (h : network.backprop F item = some (nablaW, nablaB)) :
    ∃ zs activations y aLast delta aPrev nwLast,
      forwardTrace F network.weights network.biases item.Values =
        some (zs, activations) ∧
      OneHotMatrix 1 item.Distinct 0 (truncQ item.Label) = some y ∧
      goIndex activations ((activations.length : ℤ) - 1) = some aLast ∧
      aLast.Sub y = some delta ∧
      goIndex activations ((activations.length : ℤ) - 2) = some aPrev ∧
      aPrev.Transpose.Dot delta = some nwLast ∧
      0 ≤ truncQ item.Label ∧ (truncQ item.Label).toNat < item.Distinct ∧
      y.cols = item.Distinct ∧ y.values.length = item.Distinct ∧
      (∀ k < item.Distinct,
        y.values.getD k 0 = if k = (truncQ item.Label).toNat then 1 else 0) ∧
      delta.cols = aLast.cols ∧ delta.values.length = aLast.values.length ∧
      (∀ k < aLast.values.length,
        delta.values.getD k 0 = aLast.values.getD k 0 - y.values.getD k 0) ∧
      nablaB.length = network.biases.length ∧
      nablaB.get? (nablaB.length - 1) = some delta ∧
      nablaW.length = network.weights.length ∧
      nablaW.get? (nablaW.length - 1) = some nwLast ∧
      nwLast.cols = delta.cols ∧
      (∀ i < aPrev.Cols, ∀ j < delta.cols,
        nwLast.values.getD (i * delta.cols + j) 0 =
          aPrev.values.getD i 0 * delta.values.getD j 0) := by
  rw [NN.backprop] at h
  simp only [bind, Option.bind_eq_some] at h
  obtain ⟨⟨zs, activations⟩, hft, h⟩ := h
  simp only [Option.bind_eq_some, Option.pure_def, Option.some.injEq] at h
  obtain ⟨y, hy, aLast, haL, delta, hdelta, nablaB1, hB1, aPrev, haP,
    nwLast, hnw, nablaW1, hW1, ⟨dl, nW, nB⟩, hfold, hpure⟩ := h
  injection hpure with hpw hpb
  subst hpw
  subst hpb
  -- one-hot facts
  obtain ⟨-, hsc0, hscD, -, hycols, hyvals⟩ := oneHotMatrix_some hy
  have hD0 : 0 < item.Distinct := by omega
  have hylen : y.values.length = item.Distinct := by
    rw [hyvals]; simp
  have hyget : ∀ k < item.Distinct,
      y.values.getD k 0 = if k = (truncQ item.Label).toNat then 1 else 0 := by
    intro k hk
    rw [hyvals]
    have h0 : (0 : ℤ).toNat * item.Distinct + (truncQ item.Label).toNat =
        (truncQ item.Label).toNat := by simp
    rw [h0]
    have h1 : (1 : ℕ) * item.Distinct = item.Distinct := one_mul _
    rw [h1]
    exact getD_set_one _ _ _ hscD hk
  -- delta facts
  obtain ⟨hdc, hdlen, hdle, hdlast, hdrows, hdc0, hdget⟩ := sub_some hdelta
  -- shapes: y.Rows = 1, aLast.Rows = 1, delta.Rows = 1
  have hyrows : y.Rows = 1 := by
    rw [Matrix.Rows, hylen, hycols]
    exact Nat.div_self hD0
  have haLrows : aLast.Rows = 1 := by rw [hdrows, hyrows]
  have haLlen : aLast.values.length = aLast.cols := by
    rw [hdlast, haLrows, one_mul]; rfl
  have hdeltarows : delta.Rows = 1 := by
    rw [Matrix.Rows, hdlen, hdc, haLlen]
    exact Nat.div_self (Nat.pos_of_ne_zero hdc0)
  -- aPrev is a row vector
  obtain ⟨-, -, hTC⟩ := dot_shape hnw
  have haProws : aPrev.Rows = 1 := by
    have : aPrev.Transpose.cols = aPrev.Rows := rfl
    have h2 : aPrev.Transpose.Cols = delta.Rows := hTC
    rw [hdeltarows] at h2
    exact h2
  obtain ⟨hTcols, hTlen, hTget⟩ := transpose_row haProws
  obtain ⟨hnwcols, hnwlen, hnwget⟩ := dot_single_col hTcols hnw
  -- the backward loop leaves the last entries in place
  have hmem : ∀ l ∈ List.range' 2 (network.layers.length - 2), 2 ≤ l :=
    fun l hl => (List.mem_range'_1.mp hl).1
  obtain ⟨hWlen, hBlen, hWgetp, hBgetp⟩ :=
    backLoop_preserves _ hmem (delta, nablaW1, nablaB1) (dl, nW, nB) hfold
  obtain ⟨hB1a, hB1b, hB1set⟩ := goSet_some hB1
  obtain ⟨hW1a, hW1b, hW1set⟩ := goSet_some hW1
  have hB0len : (zeroGrads network.biases).length = network.biases.length :=
    zeroGrads_length _
  have hW0len : (zeroGrads network.weights).length = network.weights.length :=
    zeroGrads_length _
  have hB1len : nablaB1.length = (zeroGrads network.biases).length := by
    rw [hB1set]; simp
  have hW1len : nablaW1.length = (zeroGrads network.weights).length := by
    rw [hW1set]; simp
  have hB1toNat : (((zeroGrads network.biases).length : ℤ) - 1).toNat =
      (zeroGrads network.biases).length - 1 := by omega
  have hW1toNat : (((zeroGrads network.weights).length : ℤ) - 1).toNat =
      (zeroGrads network.weights).length - 1 := by omega
  have hB1get : nablaB1.get? (nablaB1.length - 1) = some delta := by
    rw [hB1set, hB1toNat]
    have : (zeroGrads network.biases).length - 1 <
        (zeroGrads network.biases).length := by omega
    simpa [hB1len, hB1toNat] using List.get?_set_eq_of_lt delta this
  have hW1get : nablaW1.get? (nablaW1.length - 1) = some nwLast := by
    rw [hW1set, hW1toNat]
    have : (zeroGrads network.weights).length - 1 <
        (zeroGrads network.weights).length := by omega
    simpa [hW1len, hW1toNat] using List.get?_set_eq_of_lt nwLast this
  refine ⟨zs, activations, y, aLast, delta, aPrev, nwLast, hft, hy, haL,
    hdelta, haP, hnw, hsc0, hscD, hycols, hylen, hyget, hdc, hdlen, hdget,
    ?_, ?_, ?_, ?_, hnwcols, ?_⟩
  · rw [hBlen, hB1len, hB0len]
  · rw [hBlen, hB1len]
    rw [hB1len] at hBgetp hB1get
    rw [hBgetp, hB1get]
  · rw [hWlen, hW1len, hW0len]
  · rw [hWlen, hW1len]
    rw [hW1len] at hWgetp hW1get
    rw [hWgetp, hW1get]
  · intro i hi j hj
    have hi' : i < aPrev.Transpose.values.length := by rw [hTlen]; exact hi
    have hj' : j < delta.Cols := hj
    have := hnwget i hi' j hj'
    rw [hTget i hi] at this
    exact this

/-- Witness for C5: the hypothesis is satisfiable — `backprop` completes on
`net0` with `item0` (both gradients are the `1×1` zero matrix), and the
output-layer characterization holds there. -/
theorem C5_backprop_output_layer_witness :
    net0.backprop Fc item0 = some ([⟨1, [0]⟩], [⟨1, [0]⟩]) ∧
    (∃ zs activations y aLast delta aPrev nwLast,
      forwardTrace Fc net0.weights net0.biases item0.Values =
        some (zs, activations) ∧
      OneHotMatrix 1 item0.Distinct 0 (truncQ item0.Label) = some y ∧
      goIndex activations ((activations.length : ℤ) - 1) = some aLast ∧
      aLast.Sub y = some delta ∧
      goIndex activations ((activations.length : ℤ) - 2) = some aPrev ∧
      aPrev.Transpose.Dot delta = some nwLast ∧
      0 ≤ truncQ item0.Label ∧ (truncQ item0.Label).toNat < item0.Distinct ∧
      y.cols = item0.Distinct ∧ y.values.length = item0.Distinct ∧
      (∀ k < item0.Distinct,
        y.values.getD k 0 = if k = (truncQ item0.Label).toNat then 1 else 0) ∧
      delta.cols = aLast.cols ∧ delta.values.length = aLast.values.length ∧
      (∀ k < aLast.values.length,
        delta.values.getD k 0 = aLast.values.getD k 0 - y.values.getD k 0) ∧
      ([(⟨1, [0]⟩ : Matrix)] : List Matrix).length = net0.biases.length ∧
      ([(⟨1, [0]⟩ : Matrix)] : List Matrix).get?
        (([(⟨1, [0]⟩ : Matrix)] : List Matrix).length - 1) = some delta ∧
      ([(⟨1, [0]⟩ : Matrix)] : List Matrix).length = net0.weights.length ∧
      ([(⟨1, [0]⟩ : Matrix)] : List Matrix).get?
        (([(⟨1, [0]⟩ : Matrix)] : List Matrix).length - 1) = some nwLast ∧
      nwLast.cols = delta.cols ∧
      (∀ i < aPrev.Cols, ∀ j < delta.cols,
        nwLast.values.getD (i * delta.cols + j) 0 =
          aPrev.values.getD i 0 * delta.values.getD j 0)) := by
  have h : net0.backprop Fc item0 = some ([⟨1, [0]⟩], [⟨1, [0]⟩]) := by
    norm_num [NN.backprop, forwardTrace, backStep, goIndex, goSet, zeroGrads,
      Matrix.Dot, Matrix.Add, Matrix.Sub, Matrix.Mult, Matrix.operate,
      Matrix.Apply, Matrix.Sigmoid, Matrix.SigmoidPrime, Matrix.Rows,
      Matrix.Cols, Matrix.atU, Matrix.Transpose, goSum, OneHotMatrix,
      InitMatrix, InitMatrixWithValues, truncQ, Fc, net0, item0, Negate,
      OnePlus, OneMinus, Invert, Mult, List.foldlM, List.range,
      List.range.loop, List.range', Int.toNat]
  exact ⟨h, C5_backprop_output_layer Fc net0 item0 _ _ h⟩
